import Mathlib

/-!
Verification of the ultrasequence frame-sequencing core
(`ultrasequence/models.py`) against its natural-language specification.

Filenames and paths are embedded as `List Char`; Python's arbitrary
precision integers as `Int` (frame paddings, being lengths, as `Nat`).
Python methods that raise are embedded as functions returning the
(possibly partially mutated) state paired with an `Option` error, so
that "raises and leaves the object unchanged" is expressible; pure
partial accessors (`min`/`max` of an empty dict) return `Option`.
-/

namespace Ultraseq

/-- Filename/path strings are lists of characters. -/
abbrev Str := List Char

/-- The negation of `Char.isDigit`, used when scanning for the frame run. -/
def notDigit (c : Char) : Bool := !c.isDigit

/-- Embedding of `extract_frame` (models.py lines 10-32).  The regular
expression `cfg.frame_extract_re` and its group indices are configuration
values not present under `src/`; that part is Modelled from the spec:
"locate the last maximal run of digits in the stem.  Return
`(head, frame_str, tail)` ... If no digit run exists, return
`(stem, '', '')`", with an absent head normalized to the empty string
(models.py lines 30-31). -/
def extract_frame (name : Str) : Str × Str × Str :=
  let rev := name.reverse
  let tailRev := rev.takeWhile notDigit
  let rest := rev.dropWhile notDigit
  let frameRev := rest.takeWhile Char.isDigit
  let headRev := rest.dropWhile Char.isDigit
  if frameRev.isEmpty then (name, [], [])
  else (headRev.reverse, frameRev.reverse, tailRev.reverse)

/-- Embedding of `split_extension` (models.py lines 35-45): split the
base filename from its extension at the final dot; a name with no dot
has the empty extension. -/
def split_extension (filename : Str) : Str × Str :=
  if filename.contains '.' then
    let rev := filename.reverse
    (((rev.dropWhile (fun c => c != '.')).tail).reverse,
     (rev.takeWhile (fun c => c != '.')).reverse)
  else (filename, [])

/-- Embedding of `os.path.split` as used by `File.__init__`
(models.py line 138): split at the last slash; the head keeps no
trailing slashes unless it consists only of slashes. -/
def splitPath (p : Str) : Str × Str :=
  let rev := p.reverse
  let nameRev := rev.takeWhile (fun c => c != '/')
  let headRevRaw := rev.dropWhile (fun c => c != '/')
  let headRev :=
    if headRevRaw.any (fun c => c != '/') then
      headRevRaw.dropWhile (fun c => c == '/')
    else headRevRaw
  (headRev.reverse, nameRev.reverse)

/-- Embedding of `os.path.join` as used by `File.__init__`
(models.py line 143), POSIX semantics for two components. -/
def joinPath (a b : Str) : Str :=
  if b.head? = some '/' then b
  else if a.isEmpty then b
  else if a.getLast? = some '/' then a ++ b
  else a ++ '/' :: b

/-- Numeric value of a digit string, as computed by Python `int`. -/
def digitsNat (l : Str) : Nat := l.foldl (fun a c => 10 * a + (c.toNat - 48)) 0

/-- Inner loop of `frame_ranges_to_string` (models.py lines 60-67):
`last` is the last element of the currently open range
(`ranges[range_i][-1]`) and `curRev` the open range in reverse. -/
def runsAux (last : Int) (curRev : List Int) : List Int → List (List Int)
  | [] => [curRev.reverse]
  | x :: xs =>
    if x - 1 = last then runsAux x (x :: curRev) xs
    else curRev.reverse :: runsAux x [x] xs

/-- Rendering of one collected range (models.py lines 68-73): a run of
more than one frame renders as `start-end`, a single frame alone. -/
def renderRange (r : List Int) : String :=
  if 1 < r.length then toString r.headI ++ "-" ++ toString r.getLastI
  else toString r.headI

/-- Embedding of `frame_ranges_to_string` (models.py lines 48-75),
the value it returns.  The in-place `pop(0)` effect on a list argument
is modelled separately by `frame_ranges_to_string_call`. -/
def frame_ranges_to_string : List Int → String
  | [] => "[]"
  | x :: xs =>
    "[" ++ String.intercalate ", " ((runsAux x [x] xs).map renderRange) ++ "]"

/-- Embedding of a call to `frame_ranges_to_string` together with its
effect on the caller's argument.  When the argument is a Python `list`
(`isList = true`) the function mutates it via `frame_list.pop(0)`
(models.py line 60); a non-list iterable is first copied
(models.py lines 58-59) and the caller's object is unaffected.  The
second component is the content of the caller's argument after the
call returns. -/
def frame_ranges_to_string_call (frame_list : List Int) (isList : Bool) :
    String × List Int :=
  if frame_list.isEmpty then ("[]", frame_list)
  else if isList then (frame_ranges_to_string frame_list, frame_list.tail)
  else (frame_ranges_to_string frame_list, frame_list)

/-- One step of the spec-side run decomposition: prepend `x` to the
groups of the rest, merging it into the first group when that group
starts with `x + 1` ("consecutive integers, difference of exactly 1,
collapse", spec §4.2). -/
def consRun (x : Int) : List (List Int) → List (List Int)
  | [] => [[x]]
  | [] :: gs => [x] :: [] :: gs
  | (y :: ys) :: gs =>
    if y = x + 1 then (x :: y :: ys) :: gs else [x] :: (y :: ys) :: gs

/-- Decomposition of a list into its maximal runs of consecutive
integers, following the words of spec §4.2, written as a right fold so
it is independent of the source's accumulator loop. -/
def splitRuns : List Int → List (List Int)
  | [] => []
  | x :: xs => consRun x (splitRuns xs)

/-- Insertion of an integer into a sorted list (ascending). -/
def insertSorted (x : Int) : List Int → List Int
  | [] => [x]
  | y :: ys => if x ≤ y then x :: y :: ys else y :: insertSorted x ys

/-- Ascending sort of an integer list: embedding of Python `sorted`
applied to frame-number keys. -/
def sortInts (l : List Int) : List Int := l.foldr insertSorted []

/-- Embedding of the naming part of the `File` entity
(models.py lines 114-148).  The optional stat snapshot is modelled
separately by `PyStat` since the naming fields never depend on it. -/
structure File where
  abspath : Str
  path : Str
  name : Str
  ext : Str
  namehead : Str
  framenum : Str
  head : Str
  tail : Str
  padding : Nat
deriving DecidableEq, Repr

/-- Embedding of `File.__init__` naming logic (models.py lines 137-148):
split directory from name, name from extension, run the frame extractor
on the stem, and recombine head and tail. -/
def mkFile (filepath : Str) : File :=
  let ps := splitPath filepath
  let be := split_extension ps.2
  let hft := extract_frame be.1
  { abspath := filepath
    path := ps.1
    name := ps.2
    ext := be.2
    namehead := hft.1
    framenum := hft.2.1
    head := joinPath ps.1 hft.1
    tail := if be.2.isEmpty then [] else hft.2.2 ++ '.' :: be.2
    padding := hft.2.1.length }

/-- Embedding of the `File.frame` property (models.py lines 218-224):
the integer value of the extracted frame string, absent when the
extractor found no digits (`int('')` raises `ValueError`). -/
def File.frame (f : File) : Option Int :=
  if f.framenum.isEmpty then none else some (digitsNat f.framenum)

/-- Embedding of `File.get_seq_key` (models.py lines 351-369): head,
then `''`, `'#'` or a `%0<padding>d` specifier, then tail. -/
def File.get_seq_key (f : File) (ignorePad : Bool) : Str :=
  let digits : Str :=
    if f.framenum.isEmpty then []
    else if ignorePad then ['#']
    else '%' :: '0' :: (Nat.repr f.padding).toList ++ ['d']
  f.head ++ digits ++ f.tail

/-- Embedding of the `Stat` snapshot (models.py lines 78-99): each of
the ten fields is independently either absent (`None`) or a supplied
value.  Timestamps are modelled as integers; only their
presence/absence matters to the claims. -/
structure PyStat where
  st_size : Option Int := none
  st_ino : Option Int := none
  st_nlink : Option Int := none
  st_dev : Option Int := none
  st_mode : Option Int := none
  st_uid : Option Int := none
  st_gid : Option Int := none
  st_ctime : Option Int := none
  st_mtime : Option Int := none
  st_atime : Option Int := none
deriving DecidableEq, Repr

/-- Python truthiness of an optional integer field: `None` and `0` are
falsy, every other value truthy. -/
def statTruthy : Option Int → Bool
  | none => false
  | some v => decide (v ≠ 0)

/-- Embedding of the `File.size` property (models.py lines 231-241).
`disk` is the size `os.stat` would report for the file on disk
(`none` when the file does not exist, making `os.stat` raise
`FileNotFoundError`).  Returns the reported value and the stat record
after the access (the property writes a freshly statted size back). -/
def File.sizeProp (stat : PyStat) (disk : Option Int) : Option Int × PyStat :=
  if statTruthy stat.st_size then (stat.st_size, stat)
  else
    match disk with
    | some d => (some d, { stat with st_size := some d })
    | none => (none, stat)

/-- Embedding of the `Sequence` entity state (models.py lines 372-396):
the frame dictionary (an insertion-ordered association list with
integer frame-number keys) plus the cached naming parts. -/
structure Sequence where
  _frames : List (Int × File)
  seq_name : Str
  path : Str
  namehead : Str
  head : Str
  tail : Str
  ext : Str
  padding : Nat
  inconsistent_padding : Bool
deriving DecidableEq, Repr

/-- A freshly constructed `Sequence()` with no file appended
(models.py lines 386-394). -/
def emptySequence : Sequence :=
  { _frames := [], seq_name := [], path := [], namehead := [], head := [],
    tail := [], ext := [], padding := 0, inconsistent_padding := false }

/-- The exceptions `Sequence.append` can raise: `ValueError` for a
string whose key mismatches (spec: `KeyMismatch`), `ValueError` for a
file with no frame number (spec: `CannotSequence`), `IndexError` for a
duplicate frame number (spec: `FrameCollision`). -/
inductive AppendError
  | keyMismatch
  | cannotSequence
  | frameCollision
deriving DecidableEq, Repr

/-- Embedding of the body of `Sequence.append` after the argument has
been resolved to a `File` (models.py lines 508-524).  Returns the
sequence state after the call together with the raised exception, if
any; every raise in the source happens before any field is mutated, so
an error is always paired with the unchanged input state. -/
def appendFile (seq : Sequence) (f : File) (ignorePad : Bool) :
    Sequence × Option AppendError :=
  match f.frame with
  | none => (seq, some .cannotSequence)
  | some n =>
    if seq._frames.isEmpty then
      ({ _frames := [(n, f)]
         seq_name := f.get_seq_key ignorePad
         path := f.path
         namehead := f.namehead
         head := f.head
         tail := f.tail
         ext := f.ext
         padding := f.padding
         inconsistent_padding := seq.inconsistent_padding }, none)
    else if (seq._frames.lookup n).isSome then
      (seq, some .frameCollision)
    else if seq.padding < f.padding then
      ({ seq with
         padding := f.padding
         inconsistent_padding := true
         _frames := seq._frames ++ [(n, f)] }, none)
    else
      ({ seq with _frames := seq._frames ++ [(n, f)] }, none)

/-- The argument of `Sequence.append`: either an already constructed
`File` object or a path string (models.py lines 501-507). -/
inductive AppendArg
  | fileArg (f : File)
  | pathArg (s : Str)

/-- Embedding of `Sequence.append` (models.py lines 495-524).  Only a
string argument is converted with `File(file)` and key-checked against
`seq_name`; a `File` argument goes straight to the body. -/
def Sequence.append (seq : Sequence) (arg : AppendArg) (ignorePad : Bool) :
    Sequence × Option AppendError :=
  match arg with
  | .fileArg f => appendFile seq f ignorePad
  | .pathArg s =>
    let f := mkFile s
    if 0 < seq._frames.length ∧ f.get_seq_key ignorePad ≠ seq.seq_name then
      (seq, some .keyMismatch)
    else appendFile seq f ignorePad

/-- The frame-number keys of the sequence, in insertion order. -/
def Sequence.keys (s : Sequence) : List Int := s._frames.map Prod.fst

/-- Embedding of `Sequence.start` (models.py lines 431-434):
`min(self._frames)`, absent (raising `ValueError`) on an empty dict. -/
def Sequence.start? (s : Sequence) : Option Int := s.keys.min?

/-- Embedding of `Sequence.end` (models.py lines 436-439):
`max(self._frames)`, absent (raising `ValueError`) on an empty dict. -/
def Sequence.end? (s : Sequence) : Option Int := s.keys.max?

/-- Embedding of the `Sequence.frames` property (models.py
lines 441-444): the number of frames actually stored. -/
def Sequence.framesCount (s : Sequence) : Nat := s._frames.length

/-- Embedding of `Sequence.implied_frames` (models.py lines 450-453):
`end - start + 1`; raises on an empty sequence. -/
def Sequence.implied_frames? (s : Sequence) : Option Int := do
  let e ← s.end?
  let a ← s.start?
  pure (e - a + 1)

/-- Embedding of `Sequence.missing_frames` (models.py lines 455-458):
`end - (start - 1) - frames`; raises on an empty sequence. -/
def Sequence.missing_frames? (s : Sequence) : Option Int := do
  let e ← s.end?
  let a ← s.start?
  pure (e - (a - 1) - (s.framesCount : Int))

/-- The integers from `a` to `b` inclusive: Python
`range(start, end + 1)`. -/
def intRange (a b : Int) : List Int :=
  List.map (fun i : Nat => a + (i : Int)) (List.range (b + 1 - a).toNat)

/-- Embedding of `Sequence.get_missing_frames` (models.py
lines 490-493): the frames of `range(start, end + 1)` not stored;
raises on an empty sequence. -/
def Sequence.get_missing_frames (s : Sequence) : Option (List Int) := do
  let a ← s.start?
  let e ← s.end?
  pure ((intRange a e).filter (fun x => (s._frames.lookup x).isNone))

/-- The exceptions `Sequence.format` can raise: `ValueError` from
`min`/`max` of the empty frame dict inside a directive, `KeyError`
from looking up an unknown directive in the dispatch table, and a
`KeyError` from `get_frame` (unreachable when start/end exist). -/
inductive FmtError
  | emptySeq
  | unknownDirective
  | lookupFail
deriving DecidableEq, Repr

/-- Decidable equality for formatter results, so concrete renderings
can be checked by `decide`. -/
instance : DecidableEq (Except FmtError String) := fun x y =>
  match x, y with
  | .ok a, .ok b =>
    if h : a = b then .isTrue (h ▸ rfl)
    else .isFalse (fun hh => h (Except.ok.inj hh))
  | .error a, .error b =>
    if h : a = b then .isTrue (h ▸ rfl)
    else .isFalse (fun hh => h (Except.error.inj hh))
  | .ok _, .error _ => .isFalse (fun hh => Except.noConfusion hh)
  | .error _, .ok _ => .isFalse (fun hh => Except.noConfusion hh)

/-- Embedding of `Sequence.__tail_without_ext` (models.py
lines 652-654): `'.'.join(self.tail.split('.')[:-1])`, i.e. everything
before the last dot, or the empty string when the tail has no dot. -/
def tail_without_ext (t : Str) : Str :=
  if t.contains '.' then (split_extension t).1 else []

/-- Embedding of the directive dispatch of `Sequence.format`
(models.py lines 575-662): the expansion of `'%' + c`.  Directives
that read `start`/`end`/`missing_frames`/`get_missing_frames` raise on
an empty sequence; an unknown character raises `KeyError` from the
dispatch-table lookup. -/
def Sequence.directive (s : Sequence) (c : Char) : Except FmtError String :=
  match c with
  | '%' => .ok "%"
  | 'p' => .ok (String.mk s.path)
  | 'h' => .ok (String.mk s.namehead)
  | 'H' => .ok (String.mk s.head)
  | 'f' => .ok (toString s.framesCount)
  | 'r' =>
    match s.start?, s.end? with
    | some a, some b =>
      match s._frames.lookup a, s._frames.lookup b with
      | some fa, some fb =>
        .ok ("[" ++ String.mk fa.framenum ++ "-" ++ String.mk fb.framenum ++ "]")
      | _, _ => .error .lookupFail
    | _, _ => .error .emptySeq
  | 'R' => .ok (frame_ranges_to_string (sortInts s.keys))
  | 'm' =>
    match s.missing_frames? with
    | some m => .ok (toString m)
    | none => .error .emptySeq
  | 'M' =>
    match s.get_missing_frames with
    | some l => .ok (frame_ranges_to_string l)
    | none => .error .emptySeq
  | 'D' => .ok (String.mk (List.replicate s.padding '#'))
  | 'P' => .ok (String.mk ('%' :: '0' :: (Nat.repr s.padding).toList ++ ['d']))
  | 't' => .ok (String.mk (tail_without_ext s.tail))
  | 'T' => .ok (String.mk s.tail)
  | 'e' => .ok (String.mk s.ext)
  | _ => .error .unknownDirective

/-- The character loop of `Sequence.format` (models.py lines 591-605):
`matched` records whether the previous character was an unconsumed
`%`; a trailing lone `%` is dropped. -/
def formatGo (s : Sequence) : List Char → Bool → Except FmtError String
  | [], _ => .ok ""
  | c :: rest, true => do
    let d ← s.directive c
    let r ← formatGo s rest false
    pure (d ++ r)
  | c :: rest, false =>
    if c = '%' then formatGo s rest true
    else do
      let r ← formatGo s rest false
      pure (String.singleton c ++ r)

/-- Embedding of `Sequence.format` (models.py lines 526-605) on a
template given as a character list. -/
def Sequence.format (s : Sequence) (tmpl : List Char) : Except FmtError String :=
  formatGo s tmpl false

/-- Iterated `Sequence.append` of `File` objects, as the classifier
performs it: stops (with no result) at the first raised exception. -/
def appendChain (seq : Sequence) (ignorePad : Bool) : List File → Option Sequence
  | [] => some seq
  | f :: rest =>
    match appendFile seq f ignorePad with
    | (s, none) => appendChain s ignorePad rest
    | (_, some _) => none

/-- The maximum padding over a list of files (paddings are lengths,
so the maximum over the empty list is 0). -/
def maxPadding (fs : List File) : Nat :=
  fs.foldl (fun a g => max a g.padding) 0

/-- Whether some file in the list has padding strictly exceeding the
running maximum `cur` accumulated so far. -/
def runningExceeds (cur : Nat) : List File → Bool
  | [] => false
  | f :: rest => decide (cur < f.padding) || runningExceeds (max cur f.padding) rest

/-- Whether some file after the first presents a padding strictly
exceeding the running maximum at that moment (spec §4.4 / §9). -/
def laterExceeds : List File → Bool
  | [] => false
  | f :: rest => runningExceeds f.padding rest

/-- The five files of the spec §8 example with frame-number key set
`{10, 11, 14, 15, 20}`. -/
def exFiles : List File :=
  [mkFile "/s/f.0010.exr".toList, mkFile "/s/f.0011.exr".toList,
   mkFile "/s/f.0014.exr".toList, mkFile "/s/f.0015.exr".toList,
   mkFile "/s/f.0020.exr".toList]

/-- The sequence built by appending `exFiles` in order. -/
def exSeq : Sequence := (appendChain emptySequence true exFiles).getD emptySequence

/-- A concrete sequenceable file, frame 1. -/
def c1f : File := mkFile "/p/a.001.exr".toList

/-- A different concrete file with the same frame number 1. -/
def c1g : File := mkFile "/x/c.0001.tif".toList

/-- A one-frame sequence built from `/p/shot.0001.exr`. -/
def c4seq : Sequence := (appendFile emptySequence (mkFile "/p/shot.0001.exr".toList) true).1

/-- A file whose sequence key differs from `c4seq.seq_name` and whose
frame number 2 is not yet in `c4seq`. -/
def c4file : File := mkFile "/q/other.0002.tif".toList

/-- Files of paddings 3, 4 and 2: the second append raises the
padding-inconsistency flag, the third leaves it untouched. -/
def c5files : List File :=
  [mkFile "/p/a.001.exr".toList, mkFile "/p/b.0002.exr".toList,
   mkFile "/p/c.03.exr".toList]

/-- The sequence built by appending `c5files` in order. -/
def c5seq : Sequence := (appendChain emptySequence true c5files).getD emptySequence

/-- A file of padding 4, equal to `c5seq`'s stored padding. -/
def c5next : File := mkFile "/p/d.0100.exr".toList

/-- A stat snapshot that explicitly supplies size 0 and leaves every
other field absent. -/
def c7stat : PyStat := { st_size := some 0 }

/-! Helper lemmas (shared across claims). -/

/-- Looking up `n` after inserting `(n, f)` at the back always finds
an entry. -/
theorem lookup_append_single (l : List (Int × File)) (n : Int) (f : File) :
    ((l ++ [(n, f)]).lookup n).isSome = true := by
  induction l with
  | nil => simp [List.lookup]
  | cons p t ih =>
    rcases p with ⟨k, v⟩
    by_cases hk : n == k
    · simp [List.lookup, hk]
    · simp only [List.cons_append, List.lookup]
      rw [Bool.not_eq_true] at hk
      simp [hk, ih]

/-- An association-list lookup misses exactly when no stored key
matches. -/
theorem lookup_eq_none_iff (l : List (Int × File)) (k : Int) :
    l.lookup k = none ↔ ∀ p ∈ l, p.1 ≠ k := by
  induction l with
  | nil => simp [List.lookup]
  | cons p t ih =>
    rcases p with ⟨a, v⟩
    by_cases hk : k = a
    · subst hk
      simp [List.lookup]
    · have hba : (k == a) = false := beq_eq_false_iff_ne.mpr hk
      simp only [List.lookup, hba]
      rw [ih]
      constructor
      · intro h p hp
        rcases List.mem_cons.mp hp with rfl | hp'
        · exact fun he => hk he.symm
        · exact h p hp'
      · intro h p hp
        exact h p (List.mem_cons_of_mem _ hp)

/-- C10: calling `frame_ranges_to_string` on a non-empty Python list
removes the list's first element in place (`pop(0)`), so the function
is not pure on list arguments; a non-list iterable is copied first and
the caller's object is unaffected, and an empty list is also left
untouched.  The returned string is the same in all cases. -/
theorem C10_list_mutation (x : Int) (xs : List Int) :
    (frame_ranges_to_string_call (x :: xs) true).2 = xs ∧
    (frame_ranges_to_string_call (x :: xs) true).2 ≠ x :: xs ∧
    (frame_ranges_to_string_call (x :: xs) true).1 = frame_ranges_to_string (x :: xs) ∧
    (frame_ranges_to_string_call (x :: xs) false).2 = x :: xs ∧
    (frame_ranges_to_string_call [] true).2 = [] := by
  refine ⟨by simp [frame_ranges_to_string_call], ?_, by simp [frame_ranges_to_string_call],
    by simp [frame_ranges_to_string_call], rfl⟩
  simp only [frame_ranges_to_string_call, List.isEmpty_cons, if_true, if_false]
  simp only [Bool.false_eq_true, if_false, if_true, List.tail_cons]
  exact fun h => (List.cons_ne_self x xs) h.symm

/-- C6 counterexample: for the dot-less name `abc123xyz` the extractor
tail is `xyz` but the constructed `File` discards it, storing the
empty tail, because the extension is empty (models.py lines 144-145);
the claim that the entity tail equals the extractor tail when the
extension is empty is false. -/
theorem C6_counterexample :
    (mkFile "abc123xyz".toList).ext = [] ∧
    (extract_frame "abc123xyz".toList).2.2 = "xyz".toList ∧
    (mkFile "abc123xyz".toList).tail = [] ∧
    (mkFile "abc123xyz".toList).tail ≠ (extract_frame "abc123xyz".toList).2.2 := by
  refine ⟨rfl, rfl, rfl, ?_⟩
  decide

/-- C6 amended: the entity's tail is the extractor's tail followed by
a dot and the extension when the extension is non-empty, and is the
EMPTY string when the extension is empty — the extractor's tail is
discarded in that case (models.py lines 144-147). -/
theorem C6_amended (p : Str) :
    (mkFile p).tail =
      (if (mkFile p).ext = [] then []
       else (extract_frame (split_extension (splitPath p).2).1).2.2
              ++ '.' :: (mkFile p).ext) := by
  simp [mkFile, List.isEmpty_iff]

/-- C7 counterexample: a `File` whose stat snapshot explicitly
supplies size 0 does not report 0: Python's `if not self.stat.st_size`
treats 0 as falsy (models.py line 234), so the accessor re-stats the
file on disk, reports the absent value when the file is missing, and
replaces the supplied 0 by the on-disk size when it exists. -/
theorem C7_counterexample :
    c7stat.st_size = some 0 ∧
    File.sizeProp c7stat none = (none, c7stat) ∧
    (File.sizeProp c7stat (some 5)).1 = some 5 := by
  refine ⟨rfl, ?_, ?_⟩ <;> decide

/-- C7 amended: a stat field supplied with a non-zero value is
reported as present with that value and nothing is re-resolved, but a
field supplied with value 0 is treated as absent: the accessor falls
back to an `os.stat` call, reporting exactly what the disk says
(absent when the file is missing) — absence IS inferred from zero. -/
theorem C7_amended (st : PyStat) (disk : Option Int) :
    (∀ v : Int, st.st_size = some v → v ≠ 0 →
      File.sizeProp st disk = (some v, st)) ∧
    (st.st_size = some 0 → (File.sizeProp st disk).1 = disk) := by
  constructor
  · intro v hv hnz
    simp [File.sizeProp, statTruthy, hv, hnz]
  · intro h0
    cases disk <;> simp [File.sizeProp, statTruthy, h0]

/-- C7 amended witness at concrete inputs: size 7 is reported as
supplied; size 0 degrades to the on-disk value. -/
theorem C7_amended_witness :
    File.sizeProp { st_size := some 7 } none = (some 7, { st_size := some 7 }) ∧
    (File.sizeProp c7stat (some 5)).1 = some 5 :=
  ⟨(C7_amended { st_size := some 7 } none).1 7 rfl (by decide),
   (C7_amended c7stat (some 5)).2 rfl⟩

/-- C9 counterexample: the claim says formatting a template containing
`%R` on an empty sequence raises, but `%R` feeds the (empty) sorted
key list to `frame_ranges_to_string`, which renders the empty list as
`[]` without touching `min`/`max` (models.py lines 56-57, 632-634). -/
theorem C9_counterexample :
    emptySequence.format ('%' :: 'R' :: []) = Except.ok "[]" := rfl

/-- C9 amended: on an empty sequence `start`, `end`, `implied_frames`,
`missing_frames` and `get_missing_frames` all raise (`min`/`max` of an
empty dict), and `format` on `%r`, `%m` or `%M` raises likewise, with
no empty-string guard; `%R` however renders `[]` instead of raising. -/
theorem C9_amended (s : Sequence) (h : s._frames = []) :
    s.start? = none ∧ s.end? = none ∧ s.implied_frames? = none ∧
    s.missing_frames? = none ∧ s.get_missing_frames = none ∧
    s.format ('%' :: 'r' :: []) = Except.error FmtError.emptySeq ∧
    s.format ('%' :: 'm' :: []) = Except.error FmtError.emptySeq ∧
    s.format ('%' :: 'M' :: []) = Except.error FmtError.emptySeq ∧
    s.format ('%' :: 'R' :: []) = Except.ok "[]" := by
  obtain ⟨fr, sn, pa, nh, hd, tl, ex, pd, ip⟩ := s
  cases h
  exact ⟨rfl, rfl, rfl, rfl, rfl, rfl, rfl, rfl, rfl⟩

/-- C9 amended witness: the freshly constructed empty sequence. -/
theorem C9_amended_witness :
    emptySequence.start? = none ∧
    emptySequence.format ('%' :: 'm' :: []) = Except.error FmtError.emptySeq :=
  ⟨(C9_amended emptySequence rfl).1,
   (C9_amended emptySequence rfl).2.2.2.2.2.2.1⟩

/-- C1: appending two files carrying the same integer frame number, in
either order, makes the second append raise `IndexError` (the spec's
`FrameCollision`, models.py lines 518-520) and leaves the sequence —
frame map, padding, inconsistent_padding, seq_name — exactly as it was
after the first successful append; the stored file is never silently
overwritten. -/
theorem C1_collision_never_overwrites (ip : Bool) (seq seq' : Sequence)
    (f g : File) (n : Int)
    (hf : f.frame = some n) (hg : g.frame = some n)
    (hok : appendFile seq f ip = (seq', none)) :
    appendFile seq' g ip = (seq', some AppendError.frameCollision) := by
  have key : ((seq'._frames.lookup n).isSome = true) ∧ seq'._frames.isEmpty = false := by
    simp only [appendFile, hf] at hok
    by_cases h1 : seq._frames.isEmpty
    · rw [if_pos h1] at hok
      have hs := congrArg Prod.fst hok
      dsimp at hs
      rw [← hs]
      constructor
      · simp [List.lookup]
      · rfl
    · rw [if_neg h1] at hok
      by_cases h2 : (seq._frames.lookup n).isSome
      · rw [if_pos h2] at hok
        exact absurd (congrArg Prod.snd hok) (by simp)
      · rw [if_neg h2] at hok
        by_cases h3 : seq.padding < f.padding
        · rw [if_pos h3] at hok
          have hs := congrArg Prod.fst hok
          dsimp at hs
          rw [← hs]
          exact ⟨lookup_append_single _ n f, by simp⟩
        · rw [if_neg h3] at hok
          have hs := congrArg Prod.fst hok
          dsimp at hs
          rw [← hs]
          exact ⟨lookup_append_single _ n f, by simp⟩
  simp only [appendFile, hg]
  rw [if_neg (by simp [key.2]), if_pos key.1]

/-- C1 witness: two concrete files both carrying frame 1; after the
first is appended to a fresh sequence, appending the second collides
and returns the sequence unchanged. -/
theorem C1_collision_never_overwrites_witness :
    appendFile (appendFile emptySequence c1f true).1 c1g true
      = ((appendFile emptySequence c1f true).1, some AppendError.frameCollision) :=
  C1_collision_never_overwrites true emptySequence
    (appendFile emptySequence c1f true).1 c1f c1g 1
    (by decide) (by decide) (by decide)

/-- C4 counterexample: `Sequence.append` only key-checks string
arguments (models.py lines 501-507); a `File` object whose sequence
key differs from `seq_name` is appended without complaint and inserted
into the frame map, refuting the claim that any mismatched file is
rejected however supplied. -/
theorem C4_counterexample :
    c4file.get_seq_key true ≠ c4seq.seq_name ∧
    c4seq._frames ≠ [] ∧
    (Sequence.append c4seq (.fileArg c4file) true).2 = none ∧
    ((Sequence.append c4seq (.fileArg c4file) true).1._frames.lookup 2).isSome = true := by
  refine ⟨by decide, by decide, rfl, rfl⟩

/-- C4 amended: the key check happens only when the file is supplied
as a path string: for a non-empty sequence, appending a string whose
computed key differs from `seq_name` raises `ValueError` (the spec's
`KeyMismatch`) and leaves the sequence unchanged — nothing is
inserted; a mismatched `File` object, by contrast, is never key-checked. -/
theorem C4_amended (ip : Bool) (seq : Sequence) (s : Str)
    (hne : seq._frames ≠ [])
    (hkey : (mkFile s).get_seq_key ip ≠ seq.seq_name) :
    Sequence.append seq (.pathArg s) ip = (seq, some AppendError.keyMismatch) := by
  simp only [Sequence.append]
  rw [if_pos ⟨List.length_pos.mpr hne, hkey⟩]

/-- C4 amended witness: appending the mismatching path string to the
concrete one-frame sequence raises the key mismatch. -/
theorem C4_amended_witness :
    Sequence.append c4seq (.pathArg "/q/other.0002.tif".toList) true
      = (c4seq, some AppendError.keyMismatch) :=
  C4_amended true c4seq "/q/other.0002.tif".toList (by decide) (by decide)

/-- The head of what `dropWhile` leaves fails the predicate. -/
theorem dropWhile_head_not {p : Char → Bool} {l : List Char} {x : Char}
    {xs : List Char} (h : l.dropWhile p = x :: xs) : p x = false := by
  induction l with
  | nil => simp [List.dropWhile] at h
  | cons c t ih =>
    by_cases hc : p c
    · rw [List.dropWhile_cons_of_pos hc] at h
      exact ih h
    · rw [List.dropWhile_cons_of_neg hc] at h
      cases h
      simpa using hc

/-- C2: when the stem contains a digit, `extract_frame` splits it
around the last maximal digit run and the parts concatenate back to
the stem; the frame part is a non-empty all-digit string (leading
zeros preserved because the characters are returned verbatim), the
tail contains no digit, and the head does not end in a digit (so the
run is maximal); with no digit anywhere the result is
`(stem, '', '')` with the head normalized to the stem itself. -/
theorem C2_extractor_roundtrip (name : Str) :
    (name.any Char.isDigit = true →
      (extract_frame name).1 ++ (extract_frame name).2.1 ++ (extract_frame name).2.2 = name ∧
      (extract_frame name).2.1 ≠ [] ∧
      (∀ c ∈ (extract_frame name).2.1, c.isDigit = true) ∧
      (∀ c ∈ (extract_frame name).2.2, c.isDigit = false) ∧
      (∀ c : Char, (extract_frame name).1.getLast? = some c → c.isDigit = false)) ∧
    (name.any Char.isDigit = false → extract_frame name = (name, [], [])) := by
  constructor
  · intro hany
    have hrest : name.reverse.dropWhile notDigit ≠ [] := by
      intro hnil
      rw [List.dropWhile_eq_nil_iff] at hnil
      obtain ⟨c, hc, hcd⟩ := List.any_eq_true.mp hany
      have := hnil c (List.mem_reverse.mpr hc)
      simp [notDigit, hcd] at this
    obtain ⟨r, rest', hr⟩ := List.exists_cons_of_ne_nil hrest
    have hrdig : r.isDigit = true := by
      have := dropWhile_head_not hr
      simpa [notDigit] using this
    have hne2 : ((name.reverse.dropWhile notDigit).takeWhile Char.isDigit).isEmpty = false := by
      rw [hr, List.takeWhile_cons_of_pos hrdig]
      rfl
    have hEF : extract_frame name =
        (((name.reverse.dropWhile notDigit).dropWhile Char.isDigit).reverse,
         ((name.reverse.dropWhile notDigit).takeWhile Char.isDigit).reverse,
         (name.reverse.takeWhile notDigit).reverse) := by
      simp [extract_frame, hne2]
    rw [hEF]
    refine ⟨?_, ?_, ?_, ?_, ?_⟩
    · set tl := name.reverse.takeWhile notDigit with htl
      set rs := name.reverse.dropWhile notDigit with hrs
      set fr := rs.takeWhile Char.isDigit with hfr
      set hd := rs.dropWhile Char.isDigit with hhd
      have h1 : tl ++ rs = name.reverse := List.takeWhile_append_dropWhile notDigit name.reverse
      have h2 : fr ++ hd = rs := List.takeWhile_append_dropWhile Char.isDigit rs
      have key : (tl ++ (fr ++ hd)).reverse = name := by
        rw [h2, h1, List.reverse_reverse]
      have step : hd.reverse ++ fr.reverse ++ tl.reverse = (tl ++ (fr ++ hd)).reverse := by
        simp [List.reverse_append]
      exact step.trans key
    · rw [hr, List.takeWhile_cons_of_pos hrdig]
      simp
    · intro c hc
      rw [List.mem_reverse] at hc
      exact List.mem_takeWhile_imp hc
    · intro c hc
      rw [List.mem_reverse] at hc
      have := List.mem_takeWhile_imp hc
      simpa [notDigit] using this
    · intro c hc
      rw [List.getLast?_reverse] at hc
      rcases hhd : (name.reverse.dropWhile notDigit).dropWhile Char.isDigit with _ | ⟨y, ys⟩
      · rw [hhd] at hc; cases hc
      · rw [hhd] at hc
        cases hc
        exact dropWhile_head_not hhd
  · intro hnone
    have hall : ∀ a ∈ name.reverse, notDigit a = true := by
      intro a ha
      have ham := List.mem_reverse.mp ha
      have := List.any_eq_false.mp hnone a ham
      simpa [notDigit] using this
    have hdw : name.reverse.dropWhile notDigit = [] :=
      List.dropWhile_eq_nil_iff.mpr hall
    simp [extract_frame, hdw]

/-- C2 witness: the stem `a01b` has a digit; its parts are
`a`, `01`, `b` and concatenate back. -/
theorem C2_extractor_roundtrip_witness :
    ("a01b".toList.any Char.isDigit = true) ∧
    (extract_frame "a01b".toList).1 ++ (extract_frame "a01b".toList).2.1 ++
      (extract_frame "a01b".toList).2.2 = "a01b".toList :=
  ⟨by decide, ((C2_extractor_roundtrip "a01b".toList).1 (by decide)).1⟩

/-- Every group produced by `splitRuns` is non-empty. -/
theorem splitRuns_groups_ne_nil : ∀ (l : List Int), ∀ g ∈ splitRuns l, g ≠ [] := by
  intro l
  induction l with
  | nil => intro g hg; simp [splitRuns] at hg
  | cons x xs ih =>
    intro g hg
    simp only [splitRuns] at hg
    rcases hsp : splitRuns xs with _ | ⟨g0, gs⟩
    · rw [hsp] at hg
      simp only [consRun] at hg
      rw [List.mem_singleton] at hg
      subst hg
      simp
    · rcases g0 with _ | ⟨y, ys⟩
      · exact absurd rfl (ih [] (by rw [hsp]; exact List.mem_cons_self [] gs))
      · rw [hsp] at hg
        simp only [consRun] at hg
        by_cases hxy : y = x + 1
        · rw [if_pos hxy] at hg
          rcases List.mem_cons.mp hg with rfl | hg'
          · simp
          · exact ih g (by rw [hsp]; exact List.mem_cons_of_mem _ hg')
        · rw [if_neg hxy] at hg
          rcases List.mem_cons.mp hg with rfl | hg'
          · simp
          · exact ih g (by rw [hsp]; exact hg')

/-- Closing the open run `curRev` (last element `last`) against an
already-computed decomposition of the remaining input: the run merges
into the first group when that group continues it. -/
def mergeFirst (curRev : List Int) (last : Int) : List (List Int) → List (List Int)
  | [] => [curRev.reverse]
  | g :: gs =>
    if g.headI - 1 = last then (curRev.reverse ++ g) :: gs
    else curRev.reverse :: g :: gs

/-- The accumulator loop of the source computes the same groups as the
spec-side right-fold decomposition. -/
theorem runsAux_splitRuns : ∀ (xs : List Int) (last : Int) (curRev : List Int),
    runsAux last curRev xs = mergeFirst curRev last (splitRuns xs) := by
  intro xs
  induction xs with
  | nil => intro last curRev; simp [runsAux, splitRuns, mergeFirst]
  | cons x rest ih =>
    intro last curRev
    simp only [runsAux, splitRuns]
    rw [ih x (x :: curRev), ih x [x]]
    rcases hsp : splitRuns rest with _ | ⟨g, gs⟩
    · simp only [consRun, mergeFirst, List.headI]
      by_cases hxl : x - 1 = last
      · simp only [if_pos hxl]
        simp
      · simp only [if_neg hxl]
        simp
    · rcases g with _ | ⟨y, ys⟩
      · exact absurd rfl
          (splitRuns_groups_ne_nil rest [] (by rw [hsp]; exact List.mem_cons_self [] gs))
      · simp only [consRun, mergeFirst, List.headI]
        by_cases hxy : y = x + 1
        · have h1 : y - 1 = x := by omega
          simp only [if_pos hxy, if_pos h1, mergeFirst, List.headI]
          by_cases hxl : x - 1 = last
          · simp only [if_pos hxl]
            simp
          · simp only [if_neg hxl]
            simp
        · have h1 : ¬ (y - 1 = x) := by omega
          simp only [if_neg hxy, if_neg h1, mergeFirst, List.headI]
          by_cases hxl : x - 1 = last
          · simp only [if_pos hxl]
            simp
          · simp only [if_neg hxl]
            simp

/-- Starting the loop on the first element reproduces exactly the
spec-side decomposition of the whole list. -/
theorem runsAux_eq_splitRuns (x : Int) (xs : List Int) :
    runsAux x [x] xs = splitRuns (x :: xs) := by
  rw [runsAux_splitRuns]
  simp only [splitRuns]
  rcases hsp : splitRuns xs with _ | ⟨g, gs⟩
  · simp [consRun, mergeFirst]
  · rcases g with _ | ⟨y, ys⟩
    · exact absurd rfl
        (splitRuns_groups_ne_nil xs [] (by rw [hsp]; exact List.mem_cons_self [] gs))
    · simp only [consRun, mergeFirst, List.headI]
      by_cases hxy : y = x + 1
      · have h1 : y - 1 = x := by omega
        simp only [if_pos hxy, if_pos h1]
        simp
      · have h1 : ¬ (y - 1 = x) := by omega
        simp only [if_neg hxy, if_neg h1]
        simp

/-- Each group of `splitRuns` is a run of consecutive integers. -/
theorem splitRuns_consecutive : ∀ (l : List Int), ∀ g ∈ splitRuns l,
    g.Chain' (fun a b => b = a + 1) := by
  intro l
  induction l with
  | nil => intro g hg; simp [splitRuns] at hg
  | cons x xs ih =>
    intro g hg
    simp only [splitRuns] at hg
    rcases hsp : splitRuns xs with _ | ⟨g0, gs⟩
    · rw [hsp] at hg
      simp only [consRun] at hg
      rw [List.mem_singleton] at hg
      subst hg
      simp
    · rcases g0 with _ | ⟨y, ys⟩
      · exact absurd rfl
          (splitRuns_groups_ne_nil xs [] (by rw [hsp]; exact List.mem_cons_self [] gs))
      · rw [hsp] at hg
        simp only [consRun] at hg
        by_cases hxy : y = x + 1
        · rw [if_pos hxy] at hg
          rcases List.mem_cons.mp hg with rfl | hg'
          · exact List.chain'_cons.mpr
              ⟨hxy, ih (y :: ys) (by rw [hsp]; exact List.mem_cons_self _ gs)⟩
          · exact ih g (by rw [hsp]; exact List.mem_cons_of_mem _ hg')
        · rw [if_neg hxy] at hg
          rcases List.mem_cons.mp hg with rfl | hg'
          · simp
          · exact ih g (by rw [hsp]; exact hg')

/-- C3: on a sorted list of distinct integers the source's
`frame_ranges_to_string` renders exactly the spec-side decomposition
into maximal consecutive runs: each run (always non-empty and stepping
by exactly 1) renders as `start-end` when longer than one element and
alone otherwise, runs are joined by `', '` and the whole is wrapped in
brackets; the empty list renders `[]`. -/
theorem C3_range_compressor (l : List Int) (h : l.Pairwise (· < ·)) :
    frame_ranges_to_string l =
      "[" ++ String.intercalate ", " ((splitRuns l).map renderRange) ++ "]" ∧
    ∀ g ∈ splitRuns l, g ≠ [] ∧ g.Chain' (fun a b => b = a + 1) := by
  constructor
  · cases l with
    | nil => rfl
    | cons x xs =>
      simp only [frame_ranges_to_string]
      rw [runsAux_eq_splitRuns]
  · intro g hg
    exact ⟨splitRuns_groups_ne_nil l g hg, splitRuns_consecutive l g hg⟩

/-- C3 witness: the spec's three examples, with the general theorem
applied to `[1,2,3,5]`. -/
theorem C3_range_compressor_witness :
    frame_ranges_to_string [] = "[]" ∧
    frame_ranges_to_string [5] = "[5]" ∧
    frame_ranges_to_string [1,2,3,5] = "[1-3, 5]" ∧
    frame_ranges_to_string [1,2,3,5] =
      "[" ++ String.intercalate ", " ((splitRuns [1,2,3,5]).map renderRange) ++ "]" :=
  ⟨by decide, by decide, by decide,
   (C3_range_compressor [1,2,3,5] (by decide)).1⟩

/-- A successful append to a non-empty sequence raises the stored
padding to the maximum with the new file's, sets the inconsistency
flag exactly when the new padding strictly exceeds the old, and keeps
the frame map non-empty. -/
theorem appendFile_success (seq seq' : Sequence) (f : File) (ip : Bool)
    (hne : seq._frames.isEmpty = false)
    (hok : appendFile seq f ip = (seq', none)) :
    seq'.padding = max seq.padding f.padding ∧
    seq'.inconsistent_padding
      = (seq.inconsistent_padding || decide (seq.padding < f.padding)) ∧
    seq'._frames.isEmpty = false := by
  rcases hf : f.frame with _ | n
  · simp only [appendFile, hf] at hok
    exact absurd (congrArg Prod.snd hok) (by simp)
  · simp only [appendFile, hf, hne] at hok
    by_cases h2 : (seq._frames.lookup n).isSome
    · rw [if_pos h2] at hok
      exact absurd (congrArg Prod.snd hok) (by simp)
    · rw [if_neg h2] at hok
      by_cases h3 : seq.padding < f.padding
      · rw [if_pos h3] at hok
        have hs := congrArg Prod.fst hok
        dsimp at hs
        rw [← hs]
        refine ⟨(Nat.max_eq_right (Nat.le_of_lt h3)).symm, ?_, by simp⟩
        simp [h3]
      · rw [if_neg h3] at hok
        have hs := congrArg Prod.fst hok
        dsimp at hs
        rw [← hs]
        refine ⟨(Nat.max_eq_left (Nat.le_of_not_lt h3)).symm, ?_, by simp⟩
        simp [h3]

/-- Along a chain of successful appends starting from a non-empty
sequence, the padding is the running maximum and the flag accumulates
the strict-excess events. -/
theorem appendChain_invariant (ip : Bool) : ∀ (fs : List File) (seq seq' : Sequence),
    seq._frames.isEmpty = false →
    appendChain seq ip fs = some seq' →
    seq'.padding = fs.foldl (fun a g => max a g.padding) seq.padding ∧
    seq'.inconsistent_padding
      = (seq.inconsistent_padding || runningExceeds seq.padding fs) := by
  intro fs
  induction fs with
  | nil =>
    intro seq seq' hne h
    cases h
    simp [runningExceeds]
  | cons f rest ih =>
    intro seq seq' hne h
    simp only [appendChain] at h
    rcases happ : appendFile seq f ip with ⟨s1, err⟩
    rw [happ] at h
    cases err with
    | some e => simp at h
    | none =>
      obtain ⟨hp, hfl, hne1⟩ := appendFile_success seq s1 f ip hne happ
      obtain ⟨ihp, ihf⟩ := ih s1 seq' hne1 h
      constructor
      · rw [ihp, hp]
        simp [List.foldl_cons]
      · rw [ihf, hfl, hp]
        simp only [runningExceeds, List.foldl_cons]
        rw [Bool.or_assoc]

/-- C5: over any chain of successful appends into a fresh sequence the
stored padding equals the maximum padding over all appended files, and
`inconsistent_padding` is set exactly when some file after the first
presented a padding strictly exceeding the running maximum at that
moment (models.py lines 510-523); moreover a successful append whose
padding does not exceed the current one changes neither
the padding nor the flag. -/
theorem C5_padding_flag :
    (∀ (ip : Bool) (fs : List File) (seq' : Sequence),
      appendChain emptySequence ip fs = some seq' →
      seq'.padding = maxPadding fs ∧
      seq'.inconsistent_padding = laterExceeds fs) ∧
    (∀ (ip : Bool) (seq seq' : Sequence) (f : File),
      seq._frames ≠ [] → f.padding ≤ seq.padding →
      appendFile seq f ip = (seq', none) →
      seq'.padding = seq.padding ∧
      seq'.inconsistent_padding = seq.inconsistent_padding) := by
  constructor
  · intro ip fs seq' h
    cases fs with
    | nil =>
      cases h
      exact ⟨rfl, rfl⟩
    | cons f rest =>
      simp only [appendChain] at h
      rcases happ : appendFile emptySequence f ip with ⟨s1, err⟩
      rw [happ] at h
      cases err with
      | some e => simp at h
      | none =>
        rcases hf : f.frame with _ | n
        · simp only [appendFile, hf] at happ
          exact absurd (congrArg Prod.snd happ) (by simp)
        · simp only [appendFile, hf] at happ
          have hemp : emptySequence._frames.isEmpty = true := rfl
          rw [if_pos hemp] at happ
          have hs := congrArg Prod.fst happ
          dsimp at hs
          have hs1p : s1.padding = f.padding := by rw [← hs]
          have hs1f : s1.inconsistent_padding = false := by rw [← hs]; rfl
          have hs1ne : s1._frames.isEmpty = false := by rw [← hs]; rfl
          obtain ⟨ihp, ihf⟩ := appendChain_invariant ip rest s1 seq' hs1ne h
          constructor
          · rw [ihp, hs1p]
            simp [maxPadding, List.foldl_cons, Nat.zero_max]
          · rw [ihf, hs1f, hs1p]
            simp [laterExceeds]
  · intro ip seq seq' f hne hle hok
    have hni : seq._frames.isEmpty = false := by
      simpa [List.isEmpty_iff] using hne
    obtain ⟨hp, hfl, _⟩ := appendFile_success seq seq' f ip hni hok
    constructor
    · rw [hp]
      exact Nat.max_eq_left hle
    · rw [hfl]
      simp [Nat.not_lt.mpr hle]

/-- C5 witness: paddings 3, 4, 2 appended in order give stored padding
4 with the flag raised; a further padding-4 file changes nothing. -/
theorem C5_padding_flag_witness :
    c5seq.padding = maxPadding c5files ∧
    c5seq.inconsistent_padding = laterExceeds c5files ∧
    (appendFile c5seq c5next true).1.padding = c5seq.padding ∧
    (appendFile c5seq c5next true).1.inconsistent_padding
      = c5seq.inconsistent_padding := by
  have h1 := C5_padding_flag.1 true c5files c5seq (by decide)
  have h2 := C5_padding_flag.2 true c5seq (appendFile c5seq c5next true).1 c5next
    (by decide) (by decide) (by decide)
  exact ⟨h1.1, h1.2, h2.1, h2.2⟩

/-- Membership in `intRange a b` is exactly the closed interval. -/
theorem mem_intRange (a b x : Int) : x ∈ intRange a b ↔ a ≤ x ∧ x ≤ b := by
  simp only [intRange, List.mem_map, List.mem_range]
  constructor
  · rintro ⟨i, hi, rfl⟩
    omega
  · rintro ⟨h1, h2⟩
    exact ⟨(x - a).toNat, by omega, by omega⟩

/-- `intRange` is strictly increasing. -/
theorem intRange_pairwise (a b : Int) : (intRange a b).Pairwise (· < ·) := by
  refine List.Pairwise.map _ ?_ (List.pairwise_lt_range _)
  intro i j hij
  omega

/-- C8: for a sequence with a least key `a` and greatest key `b` (and
pairwise-distinct keys, as the frame dict guarantees), the implied
frame count is `b - a + 1`, the missing count is that minus the stored
count, and `get_missing_frames` is exactly the sorted list of integers
of `[a, b]` that are not keys; for the spec §8 example with keys
`{10,11,14,15,20}` the missing list is `[12,13,16,17,18,19]` and `%M`
renders `[12-13, 16-19]`. -/
theorem C8_range_facts (s : Sequence) (a b : Int)
    (ha : s.start? = some a) (hb : s.end? = some b)
    (hnd : s.keys.Nodup) :
    (s.implied_frames? = some (b - a + 1) ∧
     s.missing_frames? = some (b - a + 1 - (s.framesCount : Int)) ∧
     ∃ l, s.get_missing_frames = some l ∧
       l.Pairwise (· < ·) ∧
       ∀ x : Int, x ∈ l ↔ (a ≤ x ∧ x ≤ b ∧ x ∉ s.keys)) ∧
    (exSeq.get_missing_frames = some [12, 13, 16, 17, 18, 19] ∧
     exSeq.format ('%' :: 'M' :: []) = Except.ok "[12-13, 16-19]") := by
  refine ⟨⟨?_, ?_, ?_⟩, rfl, rfl⟩
  · simp [Sequence.implied_frames?, ha, hb]
  · have hv : s.missing_frames? = some (b - (a - 1) - (s.framesCount : Int)) := by
      simp [Sequence.missing_frames?, ha, hb]
    rw [hv]
    congr 1
    omega
  · refine ⟨(intRange a b).filter (fun x => (s._frames.lookup x).isNone),
      by simp [Sequence.get_missing_frames, ha, hb], ?_, ?_⟩
    · exact List.Pairwise.filter _ (intRange_pairwise a b)
    · intro x
      rw [List.mem_filter, mem_intRange]
      have hkeys : (x ∈ s.keys) ↔ ∃ p, p ∈ s._frames ∧ p.1 = x := by
        simp [Sequence.keys, List.mem_map]
      constructor
      · rintro ⟨⟨h1, h2⟩, hlk⟩
        refine ⟨h1, h2, ?_⟩
        intro hx
        rw [Option.isNone_iff_eq_none, lookup_eq_none_iff] at hlk
        obtain ⟨p, hp, hpx⟩ := hkeys.mp hx
        exact hlk p hp hpx
      · rintro ⟨h1, h2, hx⟩
        refine ⟨⟨h1, h2⟩, ?_⟩
        rw [Option.isNone_iff_eq_none, lookup_eq_none_iff]
        intro p hp hpx
        exact hx (hkeys.mpr ⟨p, hp, hpx⟩)

/-- C8 witness: the spec §8 sequence has keys 10..20 with 5 stored
frames, hence 11 implied and 6 missing. -/
theorem C8_range_facts_witness :
    exSeq.implied_frames? = some 11 ∧ exSeq.missing_frames? = some 6 := by
  have h := C8_range_facts exSeq 10 20 (by decide) (by decide) (by decide)
  exact ⟨by simpa using h.1.1, by simpa using h.1.2.1⟩
